import Mathlib

/-!
Verification development for the `compare_sheet` CSV comparison tool
(`src/compare-csv.js`).  Strings are modelled as `List Char`; the three
functions of the source — `parseCSV`, `compareCSV` and `main` — are embedded
as pure Lean functions below, following the JavaScript line by line.
Console output (`console.log`) is presentation only and is not modelled;
difference records keep every field the source stores except the redundant
human-readable `message` string.
-/

namespace CompareSheet

/-- A string, modelled as a list of characters. -/
abbrev Str := List Char

/-- A field of a CSV row (`Field` in the spec's data model). -/
abbrev Field := Str

/-- A row: an ordered sequence of field strings. -/
abbrev Row := List Field

/-- A table: an ordered sequence of rows, produced by parsing one file. -/
abbrev Table := List Row

/-- Whitespace test used by `trim`, mirroring JavaScript `String.prototype.trim`
on the ASCII whitespace characters. -/
def isWS (c : Char) : Bool := c.isWhitespace

/-- Remove leading and trailing whitespace, as JavaScript `s.trim()`. -/
def trim (s : Str) : Str := (s.dropWhile isWS).rdropWhile isWS

/-- The character scan of one line in `parseCSV` (`compare-csv.js` lines
15–28): `result` is the list of completed fields, `current` the accumulator,
`inQuotes` the inside-quotes flag. -/
def parseLineAux : List Char → List Field → Str → Bool → List Field
  | [], result, current, _ => result ++ [trim current]
  | c :: rest, result, current, inQuotes =>
    if c = '"' then
      parseLineAux rest result current (!inQuotes)
    else if c = ',' ∧ inQuotes = false then
      parseLineAux rest (result ++ [trim current]) [] inQuotes
    else
      parseLineAux rest result (current ++ [c]) inQuotes

/-- Parse one physical line into a row (`compare-csv.js` lines 9–29). -/
def parseLine (line : Str) : Row := parseLineAux line [] [] false

/-- Parse CSV content into a table (`compare-csv.js` lines 7–31): split on
newline, drop lines blank after trimming, parse each remaining line. -/
def parseCSV (content : Str) : Table :=
  ((content.splitOn '\n').filter (fun l => trim l ≠ [])).map parseLine

/-- Which input file a row is present in, for `missing_row` records. -/
inductive FileTag
  | file1
  | file2
deriving DecidableEq

/-- A difference record, tagged by kind exactly as the `type` field of the
objects pushed onto `differences` in `compareCSV`.  Indices are 1-based, as
stored by the source (`rowIndex + 1`, `colIndex + 1`). -/
inductive Diff
  | row_count (count1 count2 : Nat)
  | missing_row (row : Nat) (presentIn : FileTag) (data : Row)
  | column_count (row : Nat) (count1 count2 : Nat)
  | cell_difference (row : Nat) (column : Nat) (value1 value2 : Field)
deriving DecidableEq

/-- The cell comparison at one column (`compare-csv.js` lines 96–116):
a missing cell reads as the empty string (`row[colIndex] || ''`), and a
`cell_difference` is produced exactly when the two values differ. -/
def cellDiffAt (row1 row2 : Row) (rowIndex colIndex : Nat) : Option Diff :=
  let cell1 := row1.getD colIndex []
  let cell2 := row2.getD colIndex []
  if cell1 ≠ cell2 then
    some (.cell_difference (rowIndex + 1) (colIndex + 1) cell1 cell2)
  else
    none

/-- The body of the row loop in `compareCSV` (`compare-csv.js` lines 53–127):
a row missing on either side yields a single `missing_row` record and skips
cell comparison; otherwise a `column_count` record when lengths differ,
followed by the cell differences in column order. -/
def rowDiffs (csv1 csv2 : Table) (rowIndex : Nat) : List Diff :=
  let row1 := csv1.getD rowIndex []
  let row2 := csv2.getD rowIndex []
  let maxCols := max row1.length row2.length
  if csv1.length ≤ rowIndex then
    [.missing_row (rowIndex + 1) .file2 row2]
  else if csv2.length ≤ rowIndex then
    [.missing_row (rowIndex + 1) .file1 row1]
  else
    (if row1.length ≠ row2.length then
       [.column_count (rowIndex + 1) row1.length row2.length]
     else []) ++
    (List.range maxCols).filterMap (cellDiffAt row1 row2 rowIndex)

/-- Compare two tables (`compare-csv.js` lines 34–130): the row-count check
first, then the row loop for indices `0 ≤ rowIndex < max` of both lengths.
The display-name arguments feed only console output in the source. -/
def compareCSV (csv1 csv2 : Table) (file1Name file2Name : Str) : List Diff :=
  (if csv1.length ≠ csv2.length then
     [.row_count csv1.length csv2.length]
   else []) ++
  (List.range (max csv1.length csv2.length)).flatMap (rowDiffs csv1 csv2)

/-- The structured record written by `saveDifferencesToFile`
(`compare-csv.js` lines 160–169). -/
structure Report where
  timestamp : Str
  totalDifferences : Nat
  differences : List Diff

/-- The process environment seen by `main`: the argument list after
`process.argv.slice(2)`, the file system (`fs.existsSync`, `fs.readFileSync`
which may throw, `fs.writeFileSync` which may throw), and the current time
feeding the report timestamp. -/
structure Env where
  args : List Str
  fileExists : Str → Bool
  readFile : Str → Except Str Str
  writeFile : Str → Report → Except Str Unit
  now : Str

/-- `path.basename`: the part of the path after the last separator. -/
def basename (p : Str) : Str := (p.splitOn '/').getLastD []

/-- The exit code of one run of `main` (`compare-csv.js` lines 172–227):
usage error, missing-file checks, reads and the optional report write inside
the try/catch, then `differences.length > 0 ? 1 : 0`. -/
def main (env : Env) : Nat :=
  if env.args.length < 2 then 1
  else
    let file1Path := env.args.getD 0 []
    let file2Path := env.args.getD 1 []
    let outputFile : Option Str :=
      if env.args.getD 2 [] = [] then none else some (env.args.getD 2 [])
    if env.fileExists file1Path = false then 1
    else if env.fileExists file2Path = false then 1
    else
      match env.readFile file1Path with
      | .error _ => 1
      | .ok content1 =>
        match env.readFile file2Path with
        | .error _ => 1
        | .ok content2 =>
          let csv1 := parseCSV content1
          let csv2 := parseCSV content2
          let differences :=
            compareCSV csv1 csv2 (basename file1Path) (basename file2Path)
          match outputFile with
          | none => if differences.length > 0 then 1 else 0
          | some out =>
            match env.writeFile out
                { timestamp := env.now,
                  totalDifferences := differences.length,
                  differences := differences } with
            | .error _ => 1
            | .ok _ => if differences.length > 0 then 1 else 0

/-! ### Lemmas about `trim` -/

theorem trim_nil : trim [] = [] := rfl

theorem dropWhile_trim (l : Str) : (trim l).dropWhile isWS = trim l := by
  rw [List.dropWhile_eq_self_iff]
  intro hl
  have hpre : (trim l).IsPrefix (l.dropWhile isWS) := List.rdropWhile_prefix _ _
  have hlen : 0 < (l.dropWhile isWS).length :=
    lt_of_lt_of_le hl hpre.length_le
  have hget := hpre.getElem (n := 0) hl
  have hhead := List.head_dropWhile_not isWS l
    (by intro hnil; rw [hnil] at hlen; simp at hlen)
  rw [List.get_eq_getElem, hget]
  simpa [List.head_eq_getElem] using hhead

theorem trim_trim (l : Str) : trim (trim l) = trim l := by
  show ((trim l).dropWhile isWS).rdropWhile isWS = trim l
  rw [dropWhile_trim]
  exact List.rdropWhile_idempotent _ _

theorem trim_eq_nil_iff (l : Str) : trim l = [] ↔ l.all isWS = true := by
  unfold trim
  rw [List.rdropWhile_eq_nil_iff, List.all_eq_true]
  constructor
  · intro h c hc
    have hsplit := List.takeWhile_append_dropWhile (p := isWS) (l := l)
    rw [← hsplit] at hc
    rcases List.mem_append.mp hc with h1 | h2
    · exact List.mem_takeWhile_imp h1
    · exact h _ h2
  · intro h c hc
    exact h c (List.dropWhile_subset _ hc)

theorem mem_of_mem_trim {c : Char} {l : Str} (h : c ∈ trim l) : c ∈ l := by
  unfold trim at h
  exact List.dropWhile_subset _ ((List.rdropWhile_prefix _ _).subset h)

/-! ### Lemmas about `List.splitOn` -/

theorem mem_splitOnP_info {α : Type} {p : α → Bool} :
    ∀ (s : List α), ∀ l ∈ s.splitOnP p, ∀ c ∈ l, c ∈ s ∧ p c = false := by
  intro s
  induction s with
  | nil =>
    intro l hl c hc
    rw [List.splitOnP_nil] at hl
    simp only [List.mem_singleton] at hl
    subst hl
    simp at hc
  | cons a t ih =>
    intro l hl c hc
    rw [List.splitOnP_cons] at hl
    by_cases hpa : p a
    · rw [if_pos hpa] at hl
      rcases List.mem_cons.mp hl with h1 | h2
      · subst h1; simp at hc
      · have := ih l h2 c hc
        exact ⟨List.mem_cons_of_mem _ this.1, this.2⟩
    · rw [if_neg hpa] at hl
      obtain ⟨h, tl, heq⟩ : ∃ h tl, t.splitOnP p = h :: tl := by
        rcases ht : t.splitOnP p with _ | ⟨h, tl⟩
        · exact absurd ht (List.splitOnP_ne_nil p t)
        · exact ⟨h, tl, rfl⟩
      rw [heq] at hl
      simp only [List.modifyHead] at hl
      rcases List.mem_cons.mp hl with h1 | h2
      · subst h1
        rcases List.mem_cons.mp hc with hc1 | hc2
        · subst hc1
          exact ⟨List.mem_cons_self _ _, by simpa using hpa⟩
        · have hm : h ∈ t.splitOnP p := by rw [heq]; exact List.mem_cons_self _ _
          have := ih h hm c hc2
          exact ⟨List.mem_cons_of_mem _ this.1, this.2⟩
      · have hm : l ∈ t.splitOnP p := by rw [heq]; exact List.mem_cons_of_mem _ h2
        have := ih l hm c hc
        exact ⟨List.mem_cons_of_mem _ this.1, this.2⟩

theorem mem_splitOn_info {sep : Char} {s : Str} {l : Str} (hl : l ∈ s.splitOn sep) :
    ∀ c ∈ l, c ∈ s ∧ c ≠ sep := by
  intro c hc
  have := mem_splitOnP_info (p := fun x => x == sep) s l hl c hc
  refine ⟨this.1, ?_⟩
  simpa using this.2

/-! ### Structural lemmas about `parseLineAux` -/

theorem parseLineAux_ne_nil :
    ∀ (cs : List Char) (res : List Field) (cur : Str) (q : Bool),
      parseLineAux cs res cur q ≠ [] := by
  intro cs
  induction cs with
  | nil => intro res cur q; simp [parseLineAux]
  | cons c rest ih =>
    intro res cur q
    unfold parseLineAux
    by_cases h1 : c = '"'
    · rw [if_pos h1]; exact ih _ _ _
    · rw [if_neg h1]
      by_cases h2 : c = ',' ∧ q = false
      · rw [if_pos h2]; exact ih _ _ _
      · rw [if_neg h2]; exact ih _ _ _

theorem parseLineAux_trimmed :
    ∀ (cs : List Char) (res : List Field) (cur : Str) (q : Bool),
      (∀ f ∈ res, trim f = f) →
      ∀ f ∈ parseLineAux cs res cur q, trim f = f := by
  intro cs
  induction cs with
  | nil =>
    intro res cur q hres f hf
    simp only [parseLineAux] at hf
    rcases List.mem_append.mp hf with h1 | h2
    · exact hres f h1
    · rw [List.mem_singleton] at h2; subst h2; exact trim_trim cur
  | cons c rest ih =>
    intro res cur q hres f hf
    unfold parseLineAux at hf
    by_cases h1 : c = '"'
    · rw [if_pos h1] at hf; exact ih _ _ _ hres f hf
    · rw [if_neg h1] at hf
      by_cases h2 : c = ',' ∧ q = false
      · rw [if_pos h2] at hf
        refine ih _ _ _ ?_ f hf
        intro g hg
        rcases List.mem_append.mp hg with hg1 | hg2
        · exact hres g hg1
        · rw [List.mem_singleton] at hg2; subst hg2; exact trim_trim cur
      · rw [if_neg h2] at hf; exact ih _ _ _ hres f hf

theorem parseLineAux_chars :
    ∀ (cs : List Char) (res : List Field) (cur : Str) (q : Bool),
      (∀ c ∈ cs, c ≠ '\n') →
      (∀ c ∈ cur, c ≠ '"' ∧ c ≠ '\n') →
      (∀ f ∈ res, ∀ c ∈ f, c ≠ '"' ∧ c ≠ '\n') →
      ∀ f ∈ parseLineAux cs res cur q, ∀ c ∈ f, c ≠ '"' ∧ c ≠ '\n' := by
  intro cs
  induction cs with
  | nil =>
    intro res cur q _ hcur hres f hf c hc
    simp only [parseLineAux] at hf
    rcases List.mem_append.mp hf with h1 | h2
    · exact hres f h1 c hc
    · rw [List.mem_singleton] at h2; subst h2
      exact hcur c (mem_of_mem_trim hc)
  | cons a rest ih =>
    intro res cur q hcs hcur hres f hf c hc
    have hcs' : ∀ c ∈ rest, c ≠ '\n' := fun x hx => hcs x (List.mem_cons_of_mem _ hx)
    unfold parseLineAux at hf
    by_cases h1 : a = '"'
    · rw [if_pos h1] at hf
      exact ih _ _ _ hcs' hcur hres f hf c hc
    · rw [if_neg h1] at hf
      by_cases h2 : a = ',' ∧ q = false
      · rw [if_pos h2] at hf
        refine ih _ _ _ hcs' (by simp) ?_ f hf c hc
        intro g hg x hx
        rcases List.mem_append.mp hg with hg1 | hg2
        · exact hres g hg1 x hx
        · rw [List.mem_singleton] at hg2; subst hg2
          exact hcur x (mem_of_mem_trim hx)
      · rw [if_neg h2] at hf
        refine ih _ _ _ hcs' ?_ hres f hf c hc
        intro x hx
        rcases List.mem_append.mp hx with hx1 | hx2
        · exact hcur x hx1
        · rw [List.mem_singleton] at hx2; subst hx2
          exact ⟨h1, hcs _ (List.mem_cons_self _ _)⟩

/-! ### Claims C5, C6, C10 -/

/-- C5: the per-line scan: a double quote toggles the inside-quotes flag and
is not added to any field; a comma ends the current field (trimmed) only when
the flag is false, and is accumulated like an ordinary character when the
flag is true; any other character is accumulated; at end of line the trimmed
accumulator becomes the final field regardless of the flag; and `parseLine`
runs this scan from the empty initial state with the flag false. -/
theorem c5_line_scan (rest : List Char) (res : List Field) (cur : Str) (q : Bool) :
    parseLineAux ('"' :: rest) res cur q = parseLineAux rest res cur (!q)
  ∧ parseLineAux (',' :: rest) res cur false
      = parseLineAux rest (res ++ [trim cur]) [] false
  ∧ parseLineAux (',' :: rest) res cur true = parseLineAux rest res (cur ++ [',']) true
  ∧ (∀ c : Char, c ≠ '"' → c ≠ ',' →
      parseLineAux (c :: rest) res cur q = parseLineAux rest res (cur ++ [c]) q)
  ∧ parseLineAux [] res cur q = res ++ [trim cur]
  ∧ ∀ line : Str, parseLine line = parseLineAux line [] [] false := by
  refine ⟨by simp [parseLineAux], by simp [parseLineAux], ?_, ?_, rfl, fun _ => rfl⟩
  · simp only [parseLineAux]
    rw [if_neg (by decide), if_neg (by simp)]
  · intro c h1 h2
    simp only [parseLineAux]
    rw [if_neg h1, if_neg (by simp [h2])]

/-- C6: parsing is total (a Lean function) and produces exactly one row per
physical line — content split on newline — that is not entirely whitespace,
in input order; all-whitespace lines contribute no row. -/
theorem c6_row_per_line (s : Str) :
    parseCSV s = ((s.splitOn '\n').filter (fun l => !(l.all isWS))).map parseLine := by
  unfold parseCSV
  congr 1
  apply List.filter_congr
  intro l _
  by_cases h : l.all isWS
  · simp [h, (trim_eq_nil_iff l).mpr h]
  · simp only [h, Bool.not_false, decide_eq_true_eq]
    intro hnil
    exact h ((trim_eq_nil_iff l).mp hnil)

theorem parsedRow_good (s : Str) :
    ∀ r ∈ parseCSV s, r ≠ [] ∧ ∀ f ∈ r, trim f = f ∧ '"' ∉ f ∧ '\n' ∉ f := by
  intro r hr
  unfold parseCSV at hr
  rw [List.mem_map] at hr
  obtain ⟨l, hl, hparse⟩ := hr
  have hls : l ∈ s.splitOn '\n' := List.mem_of_mem_filter hl
  have hnolf : ∀ c ∈ l, c ≠ '\n' := fun c hc => (mem_splitOn_info hls c hc).2
  subst hparse
  refine ⟨parseLineAux_ne_nil _ _ _ _, ?_⟩
  intro f hf
  refine ⟨parseLineAux_trimmed l [] [] false (by simp) f hf, ?_, ?_⟩
  · intro hq
    exact (parseLineAux_chars l [] [] false hnolf (by simp) (by simp) f hf '"' hq).1 rfl
  · intro hn
    exact (parseLineAux_chars l [] [] false hnolf (by simp) (by simp) f hf '\n' hn).2 rfl

/-- C10: every row of a parsed table has at least one field, and every field
is whitespace-trimmed and contains neither a double quote nor a newline. -/
theorem c10_field_invariants (s : Str) :
    ∀ r ∈ parseCSV s, r ≠ [] ∧ ∀ f ∈ r, trim f = f ∧ '"' ∉ f ∧ '\n' ∉ f :=
  parsedRow_good s

/-- Witness for C10 at a concrete input: the single row of `parseCSV "a,b"`. -/
theorem c10_field_invariants_witness :
    ([['a'], ['b']] : Row) ≠ [] ∧
      ∀ f ∈ ([['a'], ['b']] : Row), trim f = f ∧ '"' ∉ f ∧ '\n' ∉ f :=
  c10_field_invariants ['a', ',', 'b'] [['a'], ['b']] (by decide)

/-- Witness for C5 at a concrete input. -/
theorem c5_line_scan_witness :
    parseLineAux ['a'] [] [] false = parseLineAux [] [] ['a'] false :=
  (c5_line_scan [] [] [] false).2.2.2.1 'a' (by decide) (by decide)

/-! ### Lemmas about the comparator -/

theorem cellDiffAt_self (r : Row) (i c : Nat) : cellDiffAt r r i c = none := by
  simp [cellDiffAt]

theorem rowDiffs_eq_nil {csv1 csv2 : Table} {i : Nat}
    (h1 : i < csv1.length) (h2 : i < csv2.length)
    (heq : csv1.getD i [] = csv2.getD i []) : rowDiffs csv1 csv2 i = [] := by
  simp only [rowDiffs]
  rw [if_neg (by omega), if_neg (by omega), heq]
  rw [if_neg (by simp), List.nil_append, List.filterMap_eq_nil_iff]
  intro c _
  exact cellDiffAt_self _ _ _

theorem compareCSV_self (t : Table) (n1 n2 : Str) : compareCSV t t n1 n2 = [] := by
  unfold compareCSV
  rw [if_neg (by simp), List.nil_append, Nat.max_self, List.flatMap_eq_nil_iff]
  intro i hi
  rw [List.mem_range] at hi
  exact rowDiffs_eq_nil hi hi rfl

/-- C1: for equal tables the comparator returns an empty difference list, and
a run on two existing, readable files whose parsed tables are equal exits
with code 0. -/
theorem c1_equal_tables (t : Table) (n1 n2 : Str) (env : Env) (s1 s2 : Str)
    (hargs : env.args.length = 2)
    (hex1 : env.fileExists (env.args.getD 0 []) = true)
    (hex2 : env.fileExists (env.args.getD 1 []) = true)
    (hr1 : env.readFile (env.args.getD 0 []) = .ok s1)
    (hr2 : env.readFile (env.args.getD 1 []) = .ok s2)
    (heq : parseCSV s1 = parseCSV s2) :
    compareCSV t t n1 n2 = [] ∧ main env = 0 := by
  refine ⟨compareCSV_self t n1 n2, ?_⟩
  have hout : env.args.getD 2 [] = [] := List.getD_eq_default _ _ (by omega)
  simp only [main]
  rw [if_neg (by omega), if_neg (by rw [hex1]; simp), if_neg (by rw [hex2]; simp),
    hr1, hr2, hout]
  simp [heq, compareCSV_self]

/-- Witness for C1 at a concrete environment with two identical files. -/
theorem c1_equal_tables_witness :
    compareCSV [] [] [] [] = [] ∧
      main { args := [['f'], ['g']], fileExists := fun _ => true,
             readFile := fun _ => Except.ok ['x'],
             writeFile := fun _ _ => Except.ok (), now := [] } = 0 :=
  c1_equal_tables [] [] [] _ ['x'] ['x'] rfl rfl rfl rfl rfl rfl

/-- C3: appending one extra row to a table yields exactly one row-count
record followed by exactly one missing-row record carrying the extra row and
tagged as present in file 2, and nothing else. -/
theorem c3_appended_row (t : Table) (r : Row) (n1 n2 : Str) :
    compareCSV t (t ++ [r]) n1 n2 =
      [.row_count t.length (t.length + 1), .missing_row (t.length + 1) .file2 r] := by
  unfold compareCSV
  have hlen : (t ++ [r]).length = t.length + 1 := by simp
  rw [hlen, if_pos (by omega)]
  have hmax : max t.length (t.length + 1) = t.length + 1 := by omega
  rw [hmax, List.range_succ, List.flatMap_append, List.flatMap_singleton]
  have h1 : (List.range t.length).flatMap (rowDiffs t (t ++ [r])) = [] := by
    rw [List.flatMap_eq_nil_iff]
    intro i hi
    rw [List.mem_range] at hi
    exact rowDiffs_eq_nil hi (by simp; omega) (List.getD_append t [r] [] i hi).symm
  have h2 : rowDiffs t (t ++ [r]) t.length = [.missing_row (t.length + 1) .file2 r] := by
    simp only [rowDiffs]
    rw [if_pos (le_refl _)]
    have : (t ++ [r]).getD t.length [] = r := by
      rw [List.getD_eq_getElem _ _ (by simp)]
      simp
    rw [this]
  rw [h1, h2]
  rfl

/-- C9: the comparator is complete — an empty difference list implies the two
tables are equal row by row and cell by cell. -/
theorem c9_empty_implies_equal (csv1 csv2 : Table) (n1 n2 : Str)
    (h : compareCSV csv1 csv2 n1 n2 = []) : csv1 = csv2 := by
  unfold compareCSV at h
  rw [List.append_eq_nil] at h
  obtain ⟨hrc, hflat⟩ := h
  have hlen : csv1.length = csv2.length := by
    by_contra hne
    rw [if_pos hne] at hrc
    exact absurd hrc (by simp)
  rw [List.flatMap_eq_nil_iff] at hflat
  apply List.ext_getElem hlen
  intro i hi1 hi2
  have hrowi : rowDiffs csv1 csv2 i = [] := by
    apply hflat
    rw [List.mem_range]
    omega
  simp only [rowDiffs] at hrowi
  rw [if_neg (by omega), if_neg (by omega), List.append_eq_nil] at hrowi
  obtain ⟨hcol, hcells⟩ := hrowi
  have hlenrow : (csv1.getD i []).length = (csv2.getD i []).length := by
    by_contra hne
    rw [if_pos hne] at hcol
    exact absurd hcol (by simp)
  rw [List.filterMap_eq_nil_iff] at hcells
  have hrow : csv1.getD i [] = csv2.getD i [] := by
    apply List.ext_getElem hlenrow
    intro c hc1 hc2
    have hcell := hcells c (by rw [List.mem_range]; omega)
    simp only [cellDiffAt] at hcell
    have hceq : (csv1.getD i []).getD c [] = (csv2.getD i []).getD c [] := by
      by_contra hne
      rw [if_pos hne] at hcell
      exact absurd hcell (by simp)
    rw [List.getD_eq_getElem _ _ hc1, List.getD_eq_getElem _ _ hc2] at hceq
    exact hceq
  rw [List.getD_eq_getElem _ _ hi1, List.getD_eq_getElem _ _ hi2] at hrow
  exact hrow

/-- Witness for C9 at a concrete pair of tables. -/
theorem c9_empty_implies_equal_witness :
    compareCSV [[['a']]] [[['a']]] [] [] = [] ∧ ([[['a']]] : Table) = [[['a']]] :=
  ⟨by decide, c9_empty_implies_equal [[['a']]] [[['a']]] [] [] (by decide)⟩

/-! ### Discovery order of difference records -/

/-- Sort key of a difference record: the row it concerns (0 for the
row-count record, which precedes all rows), then the kind rank within a row
(cell differences come after the missing-row or column-count record), then
the column. -/
def diffKey : Diff → Nat × Nat × Nat
  | .row_count _ _ => (0, 0, 0)
  | .missing_row r _ _ => (r, 0, 0)
  | .column_count r _ _ => (r, 0, 0)
  | .cell_difference r c _ _ => (r, 1, c)

/-- The (1-based) row a difference record concerns; 0 for the row-count
record. -/
def diffRow (d : Diff) : Nat := (diffKey d).1

/-- Strict lexicographic order on difference-record sort keys. -/
def keyLT (a b : Diff) : Prop :=
  (diffKey a).1 < (diffKey b).1 ∨
    ((diffKey a).1 = (diffKey b).1 ∧
      ((diffKey a).2.1 < (diffKey b).2.1 ∨
        ((diffKey a).2.1 = (diffKey b).2.1 ∧ (diffKey a).2.2 < (diffKey b).2.2)))

theorem cellDiffAt_eq_some {r1 r2 : Row} {i c : Nat} {d : Diff}
    (h : cellDiffAt r1 r2 i c = some d) :
    d = .cell_difference (i + 1) (c + 1) (r1.getD c []) (r2.getD c []) := by
  simp only [cellDiffAt] at h
  split at h
  · exact (Option.some_inj.mp h).symm
  · exact absurd h (by simp)

theorem diffRow_rowDiffs {csv1 csv2 : Table} {i : Nat} :
    ∀ d ∈ rowDiffs csv1 csv2 i, diffRow d = i + 1 := by
  intro d hd
  simp only [rowDiffs] at hd
  split at hd
  · rw [List.mem_singleton] at hd; subst hd; rfl
  · split at hd
    · rw [List.mem_singleton] at hd; subst hd; rfl
    · rcases List.mem_append.mp hd with h | h
      · split at h
        · rw [List.mem_singleton] at h; subst h; rfl
        · simp at h
      · rw [List.mem_filterMap] at h
        obtain ⟨c, _, hc⟩ := h
        rw [cellDiffAt_eq_some hc]
        rfl

theorem rowDiffs_pairwise (csv1 csv2 : Table) (i : Nat) :
    (rowDiffs csv1 csv2 i).Pairwise keyLT := by
  simp only [rowDiffs]
  split
  · exact List.pairwise_singleton _ _
  · split
    · exact List.pairwise_singleton _ _
    · rw [List.pairwise_append]
      refine ⟨?_, ?_, ?_⟩
      · split
        · exact List.pairwise_singleton _ _
        · exact List.Pairwise.nil
      · rw [List.pairwise_filterMap]
        apply (List.pairwise_lt_range _).imp
        intro a b hab x hx y hy
        rw [Option.mem_def] at hx hy
        rw [cellDiffAt_eq_some hx, cellDiffAt_eq_some hy]
        refine Or.inr ⟨rfl, Or.inr ⟨rfl, ?_⟩⟩
        simp only [diffKey]
        omega
      · intro a ha b hb
        rw [List.mem_filterMap] at hb
        obtain ⟨c, _, hc⟩ := hb
        rw [cellDiffAt_eq_some hc]
        split at ha
        · rw [List.mem_singleton] at ha
          subst ha
          refine Or.inr ⟨rfl, Or.inl ?_⟩
          simp only [diffKey]
          omega
        · simp at ha

/-- C7: the difference list is ordered by discovery — the row-count record
(key row 0) precedes everything, records are grouped by increasing row, and
within a row the missing-row or column-count record precedes the cell
differences, which appear in strictly increasing column order. -/
theorem c7_discovery_order (csv1 csv2 : Table) (n1 n2 : Str) :
    (compareCSV csv1 csv2 n1 n2).Pairwise keyLT := by
  unfold compareCSV
  rw [List.pairwise_append]
  refine ⟨?_, ?_, ?_⟩
  · split
    · exact List.pairwise_singleton _ _
    · exact List.Pairwise.nil
  · rw [List.pairwise_flatMap]
    refine ⟨fun a _ => rowDiffs_pairwise csv1 csv2 a, ?_⟩
    apply (List.pairwise_lt_range _).imp
    intro a b hab x hx y hy
    have hxr := diffRow_rowDiffs x hx
    have hyr := diffRow_rowDiffs y hy
    exact Or.inl (by unfold diffRow at hxr hyr; omega)
  · intro a ha b hb
    have ha' : a = Diff.row_count csv1.length csv2.length := by
      split at ha
      · exact List.mem_singleton.mp ha
      · simp at ha
    rw [List.mem_flatMap] at hb
    obtain ⟨j, _, hbj⟩ := hb
    have hbr := diffRow_rowDiffs b hbj
    subst ha'
    refine Or.inl ?_
    unfold diffRow at hbr
    rw [hbr]
    simp only [diffKey]
    omega

theorem flatMap_range_single {β : Type} (g : Nat → List β) (m idx : Nat)
    (hlt : idx < m) (h0 : ∀ j, j < m → j ≠ idx → g j = []) :
    (List.range m).flatMap g = g idx := by
  induction m with
  | zero => omega
  | succ m ih =>
    rw [List.range_succ, List.flatMap_append, List.flatMap_singleton]
    by_cases hm : idx = m
    · subst hm
      have h1 : (List.range idx).flatMap g = [] := by
        rw [List.flatMap_eq_nil_iff]
        intro j hj
        rw [List.mem_range] at hj
        exact h0 j (by omega) (by omega)
      rw [h1, List.nil_append]
    · have h2 : g m = [] := h0 m (by omega) (by omega)
      rw [ih (by omega) (fun j hj hne => h0 j (by omega) hne), h2, List.append_nil]

/-- C4: for a row index present in both tables whose rows have different
lengths, the records the comparator emits for that row are exactly one
column-count record followed by one cell difference for each column index
below the longer row's length at which the two values — a missing cell read
as the empty string — differ, in column order. -/
theorem c4_column_mismatch (csv1 csv2 : Table) (n1 n2 : Str) (idx : Nat)
    (h1 : idx < csv1.length) (h2 : idx < csv2.length)
    (hne : (csv1.getD idx []).length ≠ (csv2.getD idx []).length) :
    (compareCSV csv1 csv2 n1 n2).filter (fun d => diffRow d = idx + 1) =
      Diff.column_count (idx + 1) (csv1.getD idx []).length (csv2.getD idx []).length ::
        (List.range (max (csv1.getD idx []).length (csv2.getD idx []).length)).filterMap
          (fun col =>
            if (csv1.getD idx []).getD col [] ≠ (csv2.getD idx []).getD col [] then
              some (Diff.cell_difference (idx + 1) (col + 1)
                ((csv1.getD idx []).getD col []) ((csv2.getD idx []).getD col []))
            else none) := by
  unfold compareCSV
  rw [List.filter_append]
  have hrc : (if csv1.length ≠ csv2.length then
      [Diff.row_count csv1.length csv2.length] else []).filter
        (fun d => diffRow d = idx + 1) = [] := by
    split
    · rw [List.filter_eq_nil_iff]
      intro d hd
      rw [List.mem_singleton] at hd
      subst hd
      simp [diffRow, diffKey]
    · rfl
  rw [hrc, List.nil_append, List.filter_flatMap]
  have hside : ∀ j, j < max csv1.length csv2.length → j ≠ idx →
      (rowDiffs csv1 csv2 j).filter (fun d => diffRow d = idx + 1) = [] := by
    intro j hj hnej
    rw [List.filter_eq_nil_iff]
    intro d hd
    have hr := diffRow_rowDiffs d hd
    simp only [hr, decide_eq_true_eq]
    omega
  rw [flatMap_range_single _ _ idx (by omega) hside]
  have hall : (rowDiffs csv1 csv2 idx).filter (fun d => diffRow d = idx + 1) =
      rowDiffs csv1 csv2 idx := by
    rw [List.filter_eq_self]
    intro d hd
    simp [diffRow_rowDiffs d hd]
  rw [hall]
  simp only [rowDiffs]
  rw [if_neg (by omega), if_neg (by omega), if_pos hne]
  rw [List.singleton_append]
  rfl

/-- Witness for C4 at a concrete pair of tables with a short and a long row. -/
theorem c4_column_mismatch_witness :
    (compareCSV [[['a']]] [[['a'], ['b']]] [] []).filter (fun d => diffRow d = 0 + 1) =
      Diff.column_count (0 + 1) (([[['a']]] : Table).getD 0 []).length
          (([[['a'], ['b']]] : Table).getD 0 []).length ::
        (List.range (max (([[['a']]] : Table).getD 0 []).length
            (([[['a'], ['b']]] : Table).getD 0 []).length)).filterMap
          (fun col =>
            if (([[['a']]] : Table).getD 0 []).getD col [] ≠
                (([[['a'], ['b']]] : Table).getD 0 []).getD col [] then
              some (Diff.cell_difference (0 + 1) (col + 1)
                ((([[['a']]] : Table).getD 0 []).getD col [])
                ((([[['a'], ['b']]] : Table).getD 0 []).getD col []))
            else none) :=
  c4_column_mismatch [[['a']]] [[['a'], ['b']]] [] [] 0
    (by decide) (by decide) (by decide)

/-! ### Exit-code characterization -/

/-- Whether a fallible file-system call succeeded. -/
def isOkE {ε α : Type} (r : Except ε α) : Bool :=
  match r with
  | .ok _ => true
  | .error _ => false

/-- The optional output-file argument of a run (`args[2] || null`: absent or
empty means no output file). -/
def outputFileOf (env : Env) : Option Str :=
  if env.args.getD 2 [] = [] then none else some (env.args.getD 2 [])

/-- The content of a read result, empty on failure (used only to state what
the difference list would be; when `noError` holds both reads succeeded). -/
def contentOr (r : Except Str Str) : Str :=
  match r with
  | .ok c => c
  | .error _ => []

/-- The difference list a run computes from its two input files. -/
def diffsOf (env : Env) : List Diff :=
  compareCSV (parseCSV (contentOr (env.readFile (env.args.getD 0 []))))
    (parseCSV (contentOr (env.readFile (env.args.getD 1 []))))
    (basename (env.args.getD 0 [])) (basename (env.args.getD 1 []))

/-- The structured report a run would write for its difference list. -/
def reportOf (env : Env) : Report :=
  { timestamp := env.now, totalDifferences := (diffsOf env).length,
    differences := diffsOf env }

/-- No error occurs during a run: at least two arguments, both input files
exist, both reads succeed, and the report write succeeds whenever an output
file was requested. -/
def noError (env : Env) : Prop :=
  2 ≤ env.args.length ∧
  env.fileExists (env.args.getD 0 []) = true ∧
  env.fileExists (env.args.getD 1 []) = true ∧
  isOkE (env.readFile (env.args.getD 0 [])) = true ∧
  isOkE (env.readFile (env.args.getD 1 [])) = true ∧
  ∀ out, outputFileOf env = some out →
    isOkE (env.writeFile out (reportOf env)) = true

/-- C2: every run exits 0 or 1, and it exits 0 exactly when no error
occurred — enough arguments, files present, reads and the optional report
write succeeded — and the difference list is empty; so any difference,
usage error, missing file, or read/write exception yields exit code 1. -/
theorem c2_exit_codes (env : Env) :
    (main env = 0 ∨ main env = 1) ∧
      (main env = 0 ↔ noError env ∧ diffsOf env = []) := by
  by_cases hargs : env.args.length < 2
  · have hm : main env = 1 := by simp [main, hargs]
    rw [hm]
    refine ⟨Or.inr rfl, ?_, ?_⟩
    · intro h; omega
    · rintro ⟨⟨h2, _⟩, _⟩; omega
  · cases hfe1 : env.fileExists (env.args.getD 0 []) with
    | false =>
      have hm : main env = 1 := by
        simp only [main]
        rw [if_neg hargs, if_pos hfe1]
      rw [hm]
      refine ⟨Or.inr rfl, ?_, ?_⟩
      · intro h; omega
      · rintro ⟨⟨_, h, _⟩, _⟩
        rw [hfe1] at h
        exact absurd h (by simp)
    | true =>
      cases hfe2 : env.fileExists (env.args.getD 1 []) with
      | false =>
        have hm : main env = 1 := by
          simp only [main]
          rw [if_neg hargs, if_neg (by rw [hfe1]; simp), if_pos hfe2]
        rw [hm]
        refine ⟨Or.inr rfl, ?_, ?_⟩
        · intro h; omega
        · rintro ⟨⟨_, _, h, _⟩, _⟩
          rw [hfe2] at h
          exact absurd h (by simp)
      | true =>
        cases hr1 : env.readFile (env.args.getD 0 []) with
        | error e =>
          have hm : main env = 1 := by
            simp only [main]
            rw [if_neg hargs, if_neg (by rw [hfe1]; simp),
              if_neg (by rw [hfe2]; simp), hr1]
          rw [hm]
          refine ⟨Or.inr rfl, ?_, ?_⟩
          · intro h; omega
          · rintro ⟨⟨_, _, _, h, _⟩, _⟩
            rw [hr1] at h
            exact absurd h (by simp [isOkE])
        | ok c1 =>
          cases hr2 : env.readFile (env.args.getD 1 []) with
          | error e =>
            have hm : main env = 1 := by
              simp only [main]
              rw [if_neg hargs, if_neg (by rw [hfe1]; simp),
                if_neg (by rw [hfe2]; simp), hr1, hr2]
            rw [hm]
            refine ⟨Or.inr rfl, ?_, ?_⟩
            · intro h; omega
            · rintro ⟨⟨_, _, _, _, h, _⟩, _⟩
              rw [hr2] at h
              exact absurd h (by simp [isOkE])
          | ok c2 =>
            have hds : diffsOf env = compareCSV (parseCSV c1) (parseCSV c2)
                (basename (env.args.getD 0 [])) (basename (env.args.getD 1 [])) := by
              simp only [diffsOf]
              rw [hr1, hr2]
              rfl
            by_cases hout : env.args.getD 2 [] = []
            · have hoo : outputFileOf env = none := by
                simp only [outputFileOf]
                rw [if_pos hout]
              have hm : main env = if (diffsOf env).length > 0 then 1 else 0 := by
                simp only [main]
                rw [if_neg hargs, if_neg (by rw [hfe1]; simp),
                  if_neg (by rw [hfe2]; simp)]
                simp only [hr1, hr2, if_pos hout]
                rw [← hds]
              by_cases hd : diffsOf env = []
              · rw [hm, if_neg (by simp [hd])]
                refine ⟨Or.inl rfl, ?_, fun _ => rfl⟩
                intro _
                refine ⟨⟨by omega, hfe1, hfe2, by rw [hr1]; rfl, by rw [hr2]; rfl, ?_⟩, hd⟩
                intro out hoc
                rw [hoo] at hoc
                exact absurd hoc (by simp)
              · rw [hm, if_pos (by simp [List.length_pos, hd])]
                refine ⟨Or.inr rfl, ?_, ?_⟩
                · intro h; omega
                · rintro ⟨_, h⟩
                  exact absurd h hd
            · have hoo : outputFileOf env = some (env.args.getD 2 []) := by
                simp only [outputFileOf]
                rw [if_neg hout]
              have hwc : env.writeFile (env.args.getD 2 [])
                  { timestamp := env.now,
                    totalDifferences := (compareCSV (parseCSV c1) (parseCSV c2)
                      (basename (env.args.getD 0 []))
                      (basename (env.args.getD 1 []))).length,
                    differences := compareCSV (parseCSV c1) (parseCSV c2)
                      (basename (env.args.getD 0 []))
                      (basename (env.args.getD 1 [])) }
                  = env.writeFile (env.args.getD 2 []) (reportOf env) := by
                rw [← hds]
                rfl
              cases hw : env.writeFile (env.args.getD 2 []) (reportOf env) with
              | error e =>
                have hm : main env = 1 := by
                  simp only [main]
                  rw [if_neg hargs, if_neg (by rw [hfe1]; simp),
                    if_neg (by rw [hfe2]; simp)]
                  simp only [hr1, hr2, if_neg hout]
                  rw [hwc, hw]
                rw [hm]
                refine ⟨Or.inr rfl, ?_, ?_⟩
                · intro h; omega
                · rintro ⟨⟨_, _, _, _, _, h⟩, _⟩
                  have hcon := h _ hoo
                  rw [hw] at hcon
                  exact absurd hcon (by simp [isOkE])
              | ok u =>
                have hm : main env = if (diffsOf env).length > 0 then 1 else 0 := by
                  simp only [main]
                  rw [if_neg hargs, if_neg (by rw [hfe1]; simp),
                    if_neg (by rw [hfe2]; simp)]
                  simp only [hr1, hr2, if_neg hout]
                  rw [hwc, hw, ← hds]
                by_cases hd : diffsOf env = []
                · rw [hm, if_neg (by simp [hd])]
                  refine ⟨Or.inl rfl, ?_, fun _ => rfl⟩
                  intro _
                  refine ⟨⟨by omega, hfe1, hfe2, by rw [hr1]; rfl, by rw [hr2]; rfl, ?_⟩, hd⟩
                  intro out hoc
                  rw [hoo] at hoc
                  have hoeq : out = env.args.getD 2 [] := (Option.some_inj.mp hoc).symm
                  subst hoeq
                  rw [hw]
                  rfl
                · rw [hm, if_pos (by simp [List.length_pos, hd])]
                  refine ⟨Or.inr rfl, ?_, ?_⟩
                  · intro h; omega
                  · rintro ⟨_, h⟩
                    exact absurd h hd

/-! ### Round-trip serialization -/

/-- Modelled from the spec (§8): the serialized form of a parsed table —
each field wrapped in quotes when it contains a comma.  The source has no
serializer; this definition follows the spec's words for the idempotence
property. -/
def quoteField (f : Field) : Str := if ',' ∈ f then '"' :: (f ++ ['"']) else f

/-- Modelled from the spec (§8): a row's fields rejoined with commas. -/
def serializeRow (r : Row) : Str := [','].intercalate (r.map quoteField)

/-- Modelled from the spec (§8): rows rejoined with newlines. -/
def serialize (t : Table) : Str := ['\n'].intercalate (t.map serializeRow)

theorem intercalate_nil (sep : Str) : sep.intercalate ([] : List Str) = [] := rfl

theorem intercalate_single (sep x : Str) : sep.intercalate [x] = x := by
  simp [List.intercalate, List.intersperse]

theorem intercalate_cons₂ (sep x y : Str) (zs : List Str) :
    sep.intercalate (x :: y :: zs) = x ++ sep ++ sep.intercalate (y :: zs) := by
  simp [List.intercalate, List.intersperse, List.append_assoc]

theorem mem_intercalate {sep : Str} :
    ∀ (xs : List Str) (c : Char), c ∈ sep.intercalate xs →
      (∃ x ∈ xs, c ∈ x) ∨ c ∈ sep := by
  intro xs
  induction xs with
  | nil => intro c hc; rw [intercalate_nil] at hc; simp at hc
  | cons x xs ih =>
    cases xs with
    | nil =>
      intro c hc
      rw [intercalate_single] at hc
      exact Or.inl ⟨x, List.mem_singleton_self x, hc⟩
    | cons y zs =>
      intro c hc
      rw [intercalate_cons₂] at hc
      rcases List.mem_append.mp hc with h1 | h2
      · rcases List.mem_append.mp h1 with h3 | h4
        · exact Or.inl ⟨x, List.mem_cons_self _ _, h3⟩
        · exact Or.inr h4
      · rcases ih c h2 with ⟨z, hz, hcz⟩ | hsep
        · exact Or.inl ⟨z, List.mem_cons_of_mem _ hz, hcz⟩
        · exact Or.inr hsep

theorem step_quote (rest : List Char) (res : List Field) (cur : Str) (q : Bool) :
    parseLineAux ('"' :: rest) res cur q = parseLineAux rest res cur (!q) := by
  simp [parseLineAux]

theorem step_comma (rest : List Char) (res : List Field) (cur : Str) :
    parseLineAux (',' :: rest) res cur false
      = parseLineAux rest (res ++ [trim cur]) [] false := by
  simp [parseLineAux]

theorem step_other {c : Char} {q : Bool} (h1 : c ≠ '"') (h2 : ¬(c = ',' ∧ q = false))
    (rest : List Char) (res : List Field) (cur : Str) :
    parseLineAux (c :: rest) res cur q = parseLineAux rest res (cur ++ [c]) q := by
  simp only [parseLineAux]
  rw [if_neg h1, if_neg h2]

theorem scan_plain :
    ∀ (cs : List Char), (∀ c ∈ cs, c ≠ '"' ∧ c ≠ ',') →
      ∀ (t : List Char) (res : List Field) (cur : Str) (q : Bool),
        parseLineAux (cs ++ t) res cur q = parseLineAux t res (cur ++ cs) q := by
  intro cs
  induction cs with
  | nil => intro _ t res cur q; simp
  | cons c cs ih =>
    intro h t res cur q
    have hc := h c (List.mem_cons_self _ _)
    rw [List.cons_append, step_other hc.1 (by simp [hc.2]),
      ih (fun x hx => h x (List.mem_cons_of_mem _ hx)) t res (cur ++ [c]) q,
      List.append_assoc, List.singleton_append]

theorem scan_quoted :
    ∀ (cs : List Char), (∀ c ∈ cs, c ≠ '"') →
      ∀ (t : List Char) (res : List Field) (cur : Str),
        parseLineAux (cs ++ t) res cur true = parseLineAux t res (cur ++ cs) true := by
  intro cs
  induction cs with
  | nil => intro _ t res cur; simp
  | cons c cs ih =>
    intro h t res cur
    have hc := h c (List.mem_cons_self _ _)
    rw [List.cons_append, step_other hc (by simp),
      ih (fun x hx => h x (List.mem_cons_of_mem _ hx)) t res (cur ++ [c]),
      List.append_assoc, List.singleton_append]

theorem scan_field (f : Field) (hq : '"' ∉ f) (t : List Char) (res : List Field) :
    parseLineAux (quoteField f ++ t) res [] false = parseLineAux t res f false := by
  unfold quoteField
  by_cases hcomma : ',' ∈ f
  · rw [if_pos hcomma]
    rw [show ('"' :: (f ++ ['"'])) ++ t = '"' :: (f ++ (['"'] ++ t)) by simp]
    rw [step_quote, Bool.not_false,
      scan_quoted f (fun x hx => fun he => hq (he ▸ hx)) _ res []]
    rw [List.nil_append, List.singleton_append, step_quote, Bool.not_true]
  · rw [if_neg hcomma]
    rw [scan_plain f
      (fun x hx => ⟨fun he => hq (he ▸ hx), fun he => hcomma (he ▸ hx)⟩) t res [] false]
    rw [List.nil_append]

theorem rowScan :
    ∀ (r : Row), r ≠ [] → (∀ f ∈ r, trim f = f ∧ '"' ∉ f) →
      ∀ (res : List Field), parseLineAux (serializeRow r) res [] false = res ++ r := by
  intro r
  induction r with
  | nil => intro h; exact absurd rfl h
  | cons f rest ih =>
    intro _ hgood res
    have hf := hgood f (List.mem_cons_self _ _)
    cases rest with
    | nil =>
      show parseLineAux (serializeRow [f]) res [] false = res ++ [f]
      unfold serializeRow
      rw [List.map_singleton, intercalate_single]
      rw [← List.append_nil (quoteField f), scan_field f hf.2]
      show res ++ [trim f] = res ++ [f]
      rw [hf.1]
    | cons g rest' =>
      show parseLineAux (serializeRow (f :: g :: rest')) res [] false = _
      unfold serializeRow
      rw [List.map_cons, List.map_cons, intercalate_cons₂]
      rw [List.append_assoc, List.singleton_append]
      rw [show ([','] : Str).intercalate (quoteField g :: List.map quoteField rest') =
        serializeRow (g :: rest') from rfl]
      rw [scan_field f hf.2, step_comma,
        ih (by simp) (fun x hx => hgood x (List.mem_cons_of_mem _ hx)) (res ++ [trim f]),
        hf.1, List.append_assoc, List.singleton_append]

theorem mem_serializeRow {r : Row} {c : Char} (hc : c ∈ serializeRow r) :
    (∃ f ∈ r, c ∈ f) ∨ c = ',' ∨ c = '"' := by
  unfold serializeRow at hc
  rcases mem_intercalate _ c hc with ⟨x, hx, hcx⟩ | hsep
  · rw [List.mem_map] at hx
    obtain ⟨f, hf, hfx⟩ := hx
    subst hfx
    unfold quoteField at hcx
    split at hcx
    · rcases List.mem_cons.mp hcx with h1 | h2
      · exact Or.inr (Or.inr h1)
      · rcases List.mem_append.mp h2 with h3 | h4
        · exact Or.inl ⟨f, hf, h3⟩
        · rw [List.mem_singleton] at h4
          exact Or.inr (Or.inr h4)
    · exact Or.inl ⟨f, hf, hcx⟩
  · rw [List.mem_singleton] at hsep
    exact Or.inr (Or.inl hsep)

theorem serializeRow_no_newline {r : Row} (h : ∀ f ∈ r, '\n' ∉ f) :
    '\n' ∉ serializeRow r := by
  intro hmem
  rcases mem_serializeRow hmem with ⟨f, hf, hcf⟩ | hc | hc
  · exact h f hf hcf
  · exact absurd hc (by decide)
  · exact absurd hc (by decide)

theorem trim_serializeRow_ne_nil {r : Row}
    (hne : r ≠ []) (hgood : ∀ f ∈ r, trim f = f) (hnse : r ≠ [[]]) :
    trim (serializeRow r) ≠ [] := by
  rw [Ne, trim_eq_nil_iff, List.all_eq_true]
  intro hall
  cases r with
  | nil => exact hne rfl
  | cons f rest =>
    cases rest with
    | nil =>
      have hf : f ≠ [] := fun h => hnse (by rw [h])
      unfold serializeRow at hall
      rw [List.map_singleton, intercalate_single] at hall
      unfold quoteField at hall
      split at hall
      · have := hall '"' (List.mem_cons_self _ _)
        exact absurd this (by decide)
      · have htf : trim f = [] := (trim_eq_nil_iff f).mpr (List.all_eq_true.mpr hall)
        rw [hgood f (List.mem_cons_self _ _)] at htf
        exact hf htf
    | cons g rest' =>
      have hcm : ',' ∈ serializeRow (f :: g :: rest') := by
        unfold serializeRow
        rw [List.map_cons, List.map_cons, intercalate_cons₂]
        exact List.mem_append.mpr (Or.inl (List.mem_append.mpr (Or.inr
          (List.mem_singleton_self _))))
      have := hall ',' hcm
      exact absurd this (by decide)

theorem parseLineAux_length :
    ∀ (cs : List Char) (res : List Field) (cur : Str) (q : Bool),
      res.length + 1 ≤ (parseLineAux cs res cur q).length := by
  intro cs
  induction cs with
  | nil => intro res cur q; simp [parseLineAux]
  | cons c rest ih =>
    intro res cur q
    by_cases h1 : c = '"'
    · subst h1
      rw [step_quote]
      exact ih res cur (!q)
    · by_cases h2 : c = ',' ∧ q = false
      · obtain ⟨hc, hqf⟩ := h2
        subst hc
        subst hqf
        rw [step_comma]
        have := ih (res ++ [trim cur]) [] false
        simp only [List.length_append, List.length_singleton] at this
        omega
      · rw [step_other h1 h2]
        exact ih res (cur ++ [c]) q

theorem dropWhile_eq_cons_head_false {p : Char → Bool} :
    ∀ {l : Str} {d : Char} {tl : Str}, List.dropWhile p l = d :: tl → p d = false := by
  intro l
  induction l with
  | nil => intro d tl hd; simp at hd
  | cons a t ih =>
    intro d tl hd
    rw [List.dropWhile_cons] at hd
    split at hd
    · exact ih hd
    · next hpa =>
      injection hd with h1 _
      subst h1
      simpa using hpa

theorem exists_first_comma {l : Str} (h : ',' ∈ l) :
    ∃ l1 l2, l = l1 ++ ',' :: l2 ∧ ',' ∉ l1 := by
  have hne : l.dropWhile (fun c => c ≠ ',') ≠ [] := by
    rw [Ne, List.dropWhile_eq_nil_iff]
    intro hall
    exact absurd (hall ',' h) (by simp)
  obtain ⟨d, tl, hd⟩ := List.exists_cons_of_ne_nil hne
  have hdc : d = ',' := by
    have := dropWhile_eq_cons_head_false hd
    simpa using this
  refine ⟨l.takeWhile (fun c => c ≠ ','), tl, ?_, ?_⟩
  · conv_lhs => rw [← List.takeWhile_append_dropWhile (p := fun c => decide (c ≠ ',')) (l := l)]
    rw [hd, hdc]
  · intro hmem
    have := List.mem_takeWhile_imp hmem
    simp at this

theorem parseLine_single_of_no_comma {l : Str} (hq : '"' ∉ l) (hc : ',' ∉ l) :
    parseLine l = [trim l] := by
  unfold parseLine
  rw [← List.append_nil l,
    scan_plain l (fun x hx => ⟨fun he => hq (he ▸ hx), fun he => hc (he ▸ hx)⟩)
      [] [] [] false]
  simp [parseLineAux]

theorem parseLine_length_of_comma {l : Str} (hq : '"' ∉ l) (hc : ',' ∈ l) :
    2 ≤ (parseLine l).length := by
  obtain ⟨l1, l2, heq, hnc⟩ := exists_first_comma hc
  subst heq
  unfold parseLine
  rw [scan_plain l1
    (fun x hx => ⟨fun he => hq (he ▸ List.mem_append.mpr (Or.inl hx)),
      fun he => hnc (he ▸ hx)⟩) _ [] [] false]
  rw [List.nil_append, step_comma]
  have := parseLineAux_length l2 ([] ++ [trim l1]) [] false
  simpa using this

theorem parsedRow_not_single_empty {s : Str} (hq : '"' ∉ s) :
    ∀ r ∈ parseCSV s, r ≠ [[]] := by
  intro r hr
  unfold parseCSV at hr
  rw [List.mem_map] at hr
  obtain ⟨l, hl, hparse⟩ := hr
  have hls : l ∈ s.splitOn '\n' := List.mem_of_mem_filter hl
  have hql : '"' ∉ l := fun hmem => hq (mem_splitOn_info hls '"' hmem).1
  have htl : trim l ≠ [] := by simpa using List.of_mem_filter hl
  subst hparse
  by_cases hcm : ',' ∈ l
  · have h2 := parseLine_length_of_comma hql hcm
    intro heq
    rw [heq] at h2
    simp at h2
  · rw [parseLine_single_of_no_comma hql hcm]
    intro heq
    exact htl (by simpa using heq)

theorem parse_serialize_table (t : Table)
    (hgood : ∀ r ∈ t, r ≠ [] ∧ (∀ f ∈ r, trim f = f ∧ '"' ∉ f ∧ '\n' ∉ f) ∧ r ≠ [[]]) :
    parseCSV (serialize t) = t := by
  cases t with
  | nil => decide
  | cons r0 t' =>
    have hnn : (r0 :: t').map serializeRow ≠ [] := by simp
    have hnl : ∀ l ∈ (r0 :: t').map serializeRow, '\n' ∉ l := by
      intro l hl
      rw [List.mem_map] at hl
      obtain ⟨r, hr, hlr⟩ := hl
      subst hlr
      exact serializeRow_no_newline (fun f hf => ((hgood r hr).2.1 f hf).2.2)
    unfold parseCSV serialize
    rw [List.splitOn_intercalate _ '\n' hnl hnn]
    have hfil : ∀ l ∈ (r0 :: t').map serializeRow, (trim l ≠ ([] : Str) : Bool) := by
      intro l hl
      rw [List.mem_map] at hl
      obtain ⟨r, hr, hlr⟩ := hl
      subst hlr
      have := trim_serializeRow_ne_nil (hgood r hr).1
        (fun f hf => ((hgood r hr).2.1 f hf).1) (hgood r hr).2.2
      simpa using this
    rw [List.filter_eq_self.mpr hfil, List.map_map]
    have hmap : ∀ r ∈ r0 :: t', (parseLine ∘ serializeRow) r = id r := by
      intro r hr
      simp only [Function.comp_apply, id_eq]
      unfold parseLine
      rw [rowScan r (hgood r hr).1
        (fun f hf => ⟨((hgood r hr).2.1 f hf).1, ((hgood r hr).2.1 f hf).2.1⟩) [],
        List.nil_append]
    rw [List.map_congr_left hmap, List.map_id]

/-- C8: for every input containing no double quote, serializing the parsed
table — fields rejoined with commas, fields containing a comma wrapped in
quotes, rows joined with newlines — and reparsing yields the same table. -/
theorem c8_round_trip (s : Str) (hq : '"' ∉ s) :
    parseCSV (serialize (parseCSV s)) = parseCSV s := by
  apply parse_serialize_table
  intro r hr
  have h1 := parsedRow_good s r hr
  exact ⟨h1.1, h1.2, parsedRow_not_single_empty hq r hr⟩

/-- Witness for C8 at a concrete quote-free input. -/
theorem c8_round_trip_witness :
    parseCSV (serialize (parseCSV ['a', ',', 'b'])) = parseCSV ['a', ',', 'b'] :=
  c8_round_trip ['a', ',', 'b'] (by decide)

end CompareSheet
